import Mathlib

/-
Verification of the PixelFirm download core (`pixelfirm/downloader.py` and
`pixelfirm/manifest_utils.py`) against its specification.

Modelling conventions:
* File contents are lists of bytes (`List Nat`).
* The filesystem is a map from path strings to optional contents; directories
  are not modelled (`dest.parent.mkdir` has no observable effect on the file
  map used here).
* One HTTP GET of a fixed URL is modelled by a `Server`: a function from the
  optional `Range` start offset (the only request datum the code varies) to a
  `Response` carrying the status code, the raw `Content-Length` header value,
  and the body as the list of chunks yielded by `iter_content`.
* Python exceptions become explicit error values (`Except`).
-/

/-- Bytes of a file or of a network body, one `Nat` per byte. -/
abbrev Bytes := List Nat

/-- The filesystem: each path either holds a file with contents or nothing. -/
abbrev FS := String → Option Bytes

/-- Writing a file at a path (`open` + `write` + close). -/
def setFile (fs : FS) (path : String) (contents : Bytes) : FS :=
  fun q => if q = path then some contents else fs q

/-- Renaming `src` to `dst` (`Path.rename`): `dst` receives the contents of
`src` and `src` disappears. The code only renames an existing `src`. -/
def renameFile (fs : FS) (src dst : String) : FS :=
  fun q => if q = dst then fs src else if q = src then none else fs q

/-- One HTTP response: status code, raw `Content-Length` header if present,
and the body as the chunk sequence produced by `iter_content`. -/
structure Response where
  status : Nat
  contentLength : Option String
  body : List Bytes

/-- A server for one URL: the response as a function of the request's `Range`
header (`some k` for `Range: bytes=k-`, `none` when no range is sent). -/
abbrev Server := Option Nat → Response

/-- The temporary path used by `download_url`:
`dest.with_suffix(dest.suffix + ".part")` appends `".part"` to the path
(the old suffix is re-attached in front of `".part"`). -/
def tempPath (dest : String) : String := dest ++ ".part"

/-- File-open mode for the temporary file: append (`"ab"`) or
truncate-write (`"wb"`). -/
inductive Mode where
  | wb
  | ab
deriving DecidableEq, Repr

/-- Size of the temporary file if it already exists, else 0
(`temp.stat().st_size if temp.exists() else 0`). -/
def existingBytes (fs : FS) (temp : String) : Nat :=
  match fs temp with
  | some b => b.length
  | none => 0

/-- Lines 28-31 of `downloader.py`: the `Range` header sent (if any) and the
open mode of the temporary file, as decided from `resume` and `existing`. -/
def rangeAndMode (resume : Bool) (existing : Nat) : Option Nat × Mode :=
  if resume && existing > 0 then (some existing, Mode.ab) else (none, Mode.wb)

/-- The streaming loop of `download_url`: each chunk is appended to the
already-written bytes; an empty chunk is skipped (`if not chunk: continue`). -/
def appendChunks : Bytes → List Bytes → Bytes
  | acc, [] => acc
  | acc, c :: rest => if c.isEmpty then appendChunks acc rest else appendChunks (acc ++ c) rest

/-- Lines 36-41 of `downloader.py`: the declared total size for the progress
bar, `int(Content-Length) + existing` when a range was sent, `none` when the
header is absent or unparseable. Feeds only the progress display. -/
def declaredTotal (r : Response) (rangeSent : Bool) (existing : Nat) : Option Nat :=
  match r.contentLength with
  | none => none
  | some s =>
    match s.toNat? with
    | some n => some (n + (if rangeSent then existing else 0))
    | none => none

/-- Errors `download_url` can raise: `requests.HTTPError` from
`raise_for_status` (carrying the status), or `FileNotFoundError` from renaming
a non-existent temporary file in the 416 branch. -/
inductive FetchErr where
  | transferFailed (status : Nat)
  | fileNotFound
deriving DecidableEq, Repr

/-- The embedding of `download_url(url, dest, resume, timeout)`
(`downloader.py` lines 22-54). The URL and timeout are abstracted into
`server`; the result is the raised error or the returned path, together with
the filesystem after the call. `raise_for_status` raises exactly for status
codes 400-599. -/
def download_url (server : Server) (dest : String) (resume : Bool) (fs : FS) :
    Except FetchErr String × FS :=
  let temp := tempPath dest
  let existing := existingBytes fs temp
  let rm := rangeAndMode resume existing
  let r := server rm.1
  if r.status = 416 then
    match fs temp with
    | some _ => (Except.ok dest, renameFile fs temp dest)
    | none => (Except.error FetchErr.fileNotFound, fs)
  else if 400 ≤ r.status ∧ r.status < 600 then
    (Except.error (FetchErr.transferFailed r.status), fs)
  else
    let base : Bytes :=
      match rm.2 with
      | Mode.ab => (fs temp).getD []
      | Mode.wb => []
    let written := appendChunks base r.body
    let fs1 := setFile fs temp written
    (Except.ok dest, renameFile fs1 temp dest)

/-- A manifest entry, as written by `update_manifest_with_entry`:
`{url, version, size, verified}`. Manifests read back from JSON are modelled
with the same shape. -/
structure Entry where
  url : String
  version : String
  size : Option Nat
  verified : Bool
deriving DecidableEq, Repr

/-- A manifest: a JSON object mapping device codenames to entries, modelled
as an association list with the dict's key order. -/
abbrev Manifest := List (String × Entry)

/-- State of the local manifest file: absent, present but not valid JSON
(so `json.loads` raises), or present holding a valid manifest object. -/
inductive LocalFile where
  | absent
  | invalid
  | valid (m : Manifest)
deriving DecidableEq, Repr

/-- Errors of `load_manifest`: the `RuntimeError` raised when the remote
fetch failed and no local copy exists (`ManifestUnavailable` in the spec), or
the `json.JSONDecodeError` that propagates when the local file exists but its
text does not parse. -/
inductive ManifestErr where
  | manifestUnavailable
  | decodeError
deriving DecidableEq, Repr

/-- Outcome of the remote GET of the manifest URL: `requests.get` raised (a
network error), or the server replied with a status code and a body that
either parses as a manifest object (`some m`, what `r.json()` returns) or
does not (`none`, `r.json()` raises). -/
inductive RemoteFetch where
  | netError
  | reply (status : Nat) (body : Option Manifest)
deriving DecidableEq, Repr

/-- The embedding of `load_manifest(timeout)` (`downloader.py` lines 10-20).
Inside the `try`: `requests.get` (raises on network error), then
`r.raise_for_status()` — which raises exactly for status codes 400-599, so
any other status (2xx, but also e.g. 300) proceeds — then `return r.json()`
(raises on an unparseable body). Every exception falls through to the local
file. -/
def load_manifest (remote : RemoteFetch) (localFile : LocalFile) :
    Except ManifestErr Manifest :=
  let fallback : Except ManifestErr Manifest :=
    match localFile with
    | LocalFile.valid m => Except.ok m
    | LocalFile.invalid => Except.error ManifestErr.decodeError
    | LocalFile.absent => Except.error ManifestErr.manifestUnavailable
  match remote with
  | RemoteFetch.netError => fallback
  | RemoteFetch.reply status body =>
    if 400 ≤ status ∧ status < 600 then fallback
    else
      match body with
      | some m => Except.ok m
      | none => fallback

/-- The `ValueError` raised for a codename missing from the manifest
(`UnknownDevice` in the spec). -/
inductive LookupErr where
  | unknownDevice (codename : String)
deriving DecidableEq, Repr

/-- Lines 58-60 of `downloader.py`: `if codename not in manifest: raise ...;
entry = manifest[codename]`. -/
def entry_for (manifest : Manifest) (codename : String) : Except LookupErr Entry :=
  match manifest.lookup codename with
  | some e => Except.ok e
  | none => Except.error (LookupErr.unknownDevice codename)

/-- Splitting a character list at every occurrence of `sep`, with Python's
`str.split` semantics: `split "a/b" = [a, b]`, `split "" = [[]]`,
`split "a/" = [[a], []]`. Structural counterpart of `url.split("/")`. -/
def splitOnChar (sep : Char) : List Char → List (List Char)
  | [] => [[]]
  | c :: rest =>
    let r := splitOnChar sep rest
    if c = sep then [] :: r
    else
      match r with
      | [] => [[c]]
      | h :: t => (c :: h) :: t

/-- The final `/`-separated segment of a string: `url.split("/")[-1]`. -/
def lastSegment (s : String) : String :=
  ((splitOnChar '/' s.toList).getLastD []).asString

/-- Any error surfacing from `search_latest_and_download`. -/
inductive AppErr where
  | manifestUnavailable
  | decodeError
  | unknownDevice (codename : String)
  | fetch (e : FetchErr)
deriving DecidableEq, Repr

/-- The embedding of `search_latest_and_download(codename, out_dir, resume,
timeout)` (`downloader.py` lines 56-66): resolve the manifest, look the
codename up, derive the destination from the URL's final path segment and
delegate to `download_url`. `server` abstracts the HTTP GET of the entry's
URL; `Path(out_dir) / filename` joins with `"/"`. -/
def search_latest_and_download (remote : RemoteFetch) (localFile : LocalFile)
    (server : Server) (codename : String) (out_dir : String) (resume : Bool)
    (fs : FS) : Except AppErr String × FS :=
  match load_manifest remote localFile with
  | Except.error ManifestErr.manifestUnavailable => (Except.error AppErr.manifestUnavailable, fs)
  | Except.error ManifestErr.decodeError => (Except.error AppErr.decodeError, fs)
  | Except.ok manifest =>
    match entry_for manifest codename with
    | Except.error (LookupErr.unknownDevice c) => (Except.error (AppErr.unknownDevice c), fs)
    | Except.ok entry =>
      let url := entry.url
      let filename := lastSegment url
      let dest := out_dir ++ "/" ++ filename
      match download_url server dest resume fs with
      | (Except.ok d, fs1) => (Except.ok d, fs1)
      | (Except.error e, fs1) => (Except.error (AppErr.fetch e), fs1)

/-- Characters of the regex class `[a-z0-9]` (the codename group). -/
def codeChar (c : Char) : Bool :=
  (('a' ≤ c && c ≤ 'z') || ('0' ≤ c && c ≤ '9'))

/-- Characters of the regex class `[a-z0-9.]` (the version group). -/
def verChar (c : Char) : Bool :=
  codeChar c || c = '.'

/-- Matching `re.search(r"^([a-z0-9]+)-([a-z0-9.]+)-factory", fname)` on the
character list of `fname`. The pattern is anchored at the start by `^`.
Both `+` groups are greedy, and since neither character class contains the
hyphen that must follow the group, the regex engine can never succeed by
backtracking a group below its maximal run: shortening a group leaves a
class character where `-` is required. Hence each group is exactly the
maximal run (`takeWhile`), which this function computes. -/
def matchFactory (l : List Char) : Option (String × String) :=
  let code := l.takeWhile codeChar
  let rest := l.dropWhile codeChar
  if code.isEmpty then none
  else
    match rest with
    | [] => none
    | ch :: rest2 =>
      if ch = '-' then
        let ver := rest2.takeWhile verChar
        let rest3 := rest2.dropWhile verChar
        if ver.isEmpty then none
        else if "-factory".toList.isPrefixOf rest3 then some (code.asString, ver.asString)
        else none
      else none

/-- The embedding of `parse_factory_filename(url)` (`manifest_utils.py` lines
10-21): returns `(None, None)` for an empty url, otherwise matches the final
`/`-separated segment against the anchored factory-filename pattern and
returns the two captured groups, or `(None, None)` when there is no match. -/
def parse_factory_filename (url : String) : Option String × Option String :=
  if url = "" then (none, none)
  else
    match matchFactory (lastSegment url).toList with
    | some (c, v) => (some c, some v)
    | none => (none, none)

/-- Python dict assignment `data[codename] = meta` on the association-list
model: replace the value in place if the key is present, else append the new
binding at the end (dicts preserve insertion order, new keys go last). -/
def insertEntry : Manifest → String → Entry → Manifest
  | [], k, v => [(k, v)]
  | (k1, v1) :: rest, k, v =>
    if k1 = k then (k, v) :: rest else (k1, v1) :: insertEntry rest k v

/-- Result of a successful `update_manifest_with_entry`: the entry returned,
the manifest object written to the manifest path, and — when a prior file
existed — the timestamped backup `(now, previous file state)` created by
`manifest_path.replace(manifest_path.with_suffix(".bak.{int(time.time())}"))`
before the write. -/
structure UpdateResult where
  meta : Entry
  written : Manifest
  backup : Option (Nat × LocalFile)
deriving DecidableEq, Repr

/-- The embedding of `update_manifest_with_entry(url, manifest_path, verify)`
(`manifest_utils.py` lines 41-74). The HEAD request of `verify_url_head` is
external I/O and is abstracted into its outcome: `headSize` is the returned
`size` and `headOk` the returned `ok` flag; `now` is `int(time.time())`.
`oldFile` is the state of the manifest file before the call; an existing but
unreadable file yields `data = {}` (the `except` branch) yet is still backed
up. The only error is the `ValueError` raised when no codename parses. -/
def update_manifest_with_entry (url : String) (oldFile : LocalFile)
    (headSize : Option Nat) (headOk : Bool) (verify : Bool) (now : Nat) :
    Except Unit UpdateResult :=
  match parse_factory_filename url with
  | (none, _) => Except.error ()
  | (some codename, ver) =>
    let version : String :=
      match ver with
      | some s => if s = "" then "unknown" else s
      | none => "unknown"
    let meta : Entry :=
      if verify then ⟨url, version, headSize, headOk⟩
      else ⟨url, version, none, false⟩
    let data : Manifest :=
      match oldFile with
      | LocalFile.valid m => m
      | _ => []
    let backup : Option (Nat × LocalFile) :=
      match oldFile with
      | LocalFile.absent => none
      | o => some (now, o)
    Except.ok ⟨meta, insertEntry data codename meta, backup⟩

/-! ### Helper lemmas -/

theorem tempPath_ne (dest : String) : tempPath dest ≠ dest := by
  intro h
  have h2 := congrArg String.length h
  rw [tempPath, String.length_append] at h2
  have h5 : ".part".length = 5 := rfl
  omega

theorem appendChunks_eq_join (chunks : List Bytes) :
    ∀ acc : Bytes, appendChunks acc chunks = acc ++ chunks.flatten := by
  induction chunks with
  | nil => intro acc; simp [appendChunks]
  | cons c rest ih =>
    intro acc
    by_cases hc : c.isEmpty
    · have : c = [] := by simpa [List.isEmpty_iff] using hc
      simp [appendChunks, hc, ih, this]
    · simp [appendChunks, hc, ih]

/-! ### C3: 416 on a resumed request publishes the temporary file as-is -/

/-- C3: for every call to `download_url` in which the server replies 416 to a
resumed request (the temporary file holds `p ≠ []` bytes, so the range
`bytes=|p|-` was sent), the call reads no body bytes (the conclusion holds for
every response body), renames the temporary file to the destination, and the
final file's bytes are exactly the temporary file's pre-existing bytes — in
particular the byte counts agree. -/
theorem fetch_416_renames_without_body (server : Server) (dest : String) (fs : FS)
    (p : Bytes) (htemp : fs (tempPath dest) = some p) (hne : p ≠ [])
    (h416 : (server (some p.length)).status = 416) :
    (download_url server dest true fs).1 = Except.ok dest ∧
    (download_url server dest true fs).2 dest = some p ∧
    (download_url server dest true fs).2 (tempPath dest) = none := by
  have hk : 0 < p.length := List.length_pos.mpr hne
  have hT := tempPath_ne dest
  simp only [download_url, existingBytes, htemp, rangeAndMode, hk, decide_True,
    Bool.true_and, if_pos, gt_iff_lt]
  simp [h416, renameFile, htemp, hT]

/-- A server that always answers 416 with a junk body, for the C3 witness. -/
def serverAlways416 : Server := fun _ => ⟨416, none, [[9, 9]]⟩

/-- A filesystem holding a two-byte temporary file, for the C3 witness. -/
def fsWithPart : FS := fun q => if q = "out/img.zip.part" then some [7, 8] else none

/-- Witness for C3 at a concrete server and filesystem. -/
theorem fetch_416_renames_without_body_witness :
    (download_url serverAlways416 "out/img.zip" true fsWithPart).1 = Except.ok "out/img.zip" ∧
    (download_url serverAlways416 "out/img.zip" true fsWithPart).2 "out/img.zip" = some [7, 8] ∧
    (download_url serverAlways416 "out/img.zip" true fsWithPart).2 (tempPath "out/img.zip") = none :=
  fetch_416_renames_without_body serverAlways416 "out/img.zip" fsWithPart [7, 8]
    (by decide) (by decide) (by decide)

/-! ### C2: non-success statuses and `TransferFailed` -/

/-- The empty filesystem. -/
def emptyFS : FS := fun _ => none

/-- A server that always answers status 300 with an empty body. -/
def serverStatus300 : Server := fun _ => ⟨300, none, []⟩

/-- Counterexample to C2 as stated: 300 (Multiple Choices) is a non-success
HTTP status other than 416, yet `download_url` does not raise
`TransferFailed` for it — `raise_for_status` only raises for 400-599 — and
the call instead returns normally. -/
theorem fetch_nonsuccess_300_not_raised :
    (download_url serverStatus300 "out/img.zip" true emptyFS).1 = Except.ok "out/img.zip" ∧
    (download_url serverStatus300 "out/img.zip" true emptyFS).1 ≠
      Except.error (FetchErr.transferFailed 300) := by
  have h1 : (download_url serverStatus300 "out/img.zip" true emptyFS).1 =
      Except.ok "out/img.zip" := rfl
  exact ⟨h1, by rw [h1]; intro h; cases h⟩

/-- C2 (amended): for every call in which the server replies with an error
status in 400-599 other than 416, `download_url` raises `TransferFailed`
carrying that status and the filesystem is returned untouched — in particular
the temporary file keeps exactly its prior byte count, neither truncated nor
created. -/
theorem fetch_error_status_raises_transferFailed (server : Server) (dest : String)
    (resume : Bool) (fs : FS) (status : Nat)
    (hstat : (server (rangeAndMode resume (existingBytes fs (tempPath dest))).1).status = status)
    (h400 : 400 ≤ status) (h600 : status < 600) (hne : status ≠ 416) :
    download_url server dest resume fs = (Except.error (FetchErr.transferFailed status), fs) := by
  simp only [download_url, hstat]
  rw [if_neg hne, if_pos ⟨h400, h600⟩]

/-- A server that always answers 404. -/
def serverStatus404 : Server := fun _ => ⟨404, none, [[1]]⟩

/-- Witness for the amended C2 at a concrete server and filesystem. -/
theorem fetch_error_status_raises_transferFailed_witness :
    download_url serverStatus404 "out/img.zip" true emptyFS =
      (Except.error (FetchErr.transferFailed 404), emptyFS) :=
  fetch_error_status_raises_transferFailed serverStatus404 "out/img.zip" true emptyFS 404
    (by decide) (by decide) (by decide) (by decide)

/-! ### C1: resuming a partial temporary file completes the download -/

/-- An HTTP source serving `resource` with standard `200`/`206`/`416`
range-request semantics (spec section 6): a full request yields 200 and the
whole resource; `Range: bytes=k-` yields 206 and the bytes from offset `k`
when `k` is inside the resource, and 416 when it is not. The body may be
chunked arbitrarily; only its concatenation is constrained. -/
def HonestServer (resource : Bytes) (server : Server) : Prop :=
  ((server none).status = 200 ∧ (server none).body.flatten = resource) ∧
  (∀ k, 0 < k → k < resource.length →
    (server (some k)).status = 206 ∧ (server (some k)).body.flatten = resource.drop k) ∧
  (∀ k, 0 < k → resource.length ≤ k → (server (some k)).status = 416)

/-- C1: for every resource and destination, if the temporary file already
holds `p` with `0 < |p|` bytes that are a prefix of the resource, then
`download_url` with `resume = true` against a standard range-serving source
returns the destination path, and publishes a final file whose byte count is
the full resource size and whose first `|p|` bytes are exactly `p`. -/
theorem fetch_resume_completes_with_prefix_preserved (resource : Bytes) (server : Server)
    (dest : String) (fs : FS) (p : Bytes) (hsrv : HonestServer resource server)
    (htemp : fs (tempPath dest) = some p) (hne : p ≠ [])
    (hpre : p <+: resource) :
    ∃ final : Bytes,
      (download_url server dest true fs).1 = Except.ok dest ∧
      (download_url server dest true fs).2 dest = some final ∧
      final.length = resource.length ∧
      final.take p.length = p := by
  obtain ⟨t, ht⟩ := hpre
  have hk : 0 < p.length := List.length_pos.mpr hne
  have hle : p.length ≤ resource.length := by rw [← ht]; simp
  have hT := tempPath_ne dest
  have htake : resource.take p.length = p := by rw [← ht, List.take_left]
  rcases Nat.lt_or_ge p.length resource.length with hlt | hge
  · obtain ⟨h206, hbody⟩ := hsrv.2.1 p.length hk hlt
    refine ⟨resource, ?_, ?_, rfl, htake⟩
    · simp only [download_url, existingBytes, htemp, rangeAndMode, hk, decide_True,
        Bool.true_and, gt_iff_lt, if_pos]
      simp [h206]
    · have hjoin : p ++ resource.drop p.length = resource := by
        rw [← ht, List.drop_left]
      simp only [download_url, existingBytes, htemp, rangeAndMode, hk, decide_True,
        Bool.true_and, gt_iff_lt, if_pos]
      simp [h206, renameFile, setFile, hT, htemp, appendChunks_eq_join, hbody, hjoin]
  · have hlen : p.length = resource.length := Nat.le_antisymm hle hge
    have hpr : p = resource := by
      have htl : t = [] := by
        have h2 := congrArg List.length ht
        simp at h2
        have h3 : t.length = 0 := by omega
        exact List.eq_nil_of_length_eq_zero h3
      rw [htl] at ht; simpa using ht
    have h416 := hsrv.2.2 p.length hk hge
    refine ⟨p, ?_, ?_, by rw [hlen], by simp⟩
    · simp only [download_url, existingBytes, htemp, rangeAndMode, hk, decide_True,
        Bool.true_and, gt_iff_lt, if_pos]
      simp [h416, htemp]
    · simp only [download_url, existingBytes, htemp, rangeAndMode, hk, decide_True,
        Bool.true_and, gt_iff_lt, if_pos]
      simp [h416, htemp, renameFile, hT]

/-- A source serving the resource in one chunk, for witnesses. -/
def plainServer (resource : Bytes) : Server := fun req =>
  match req with
  | none => ⟨200, some (toString resource.length), [resource]⟩
  | some k =>
    if k < resource.length then ⟨206, some (toString (resource.length - k)), [resource.drop k]⟩
    else ⟨416, none, []⟩

theorem plainServer_honest (resource : Bytes) : HonestServer resource (plainServer resource) := by
  refine ⟨⟨rfl, by simp [plainServer]⟩, ?_, ?_⟩
  · intro k hk hlt
    simp [plainServer, hlt]
  · intro k hk hge
    simp [plainServer, Nat.not_lt.mpr hge]

/-- A filesystem holding a one-byte partial temporary file, for the C1
witness. -/
def fsPartial : FS := fun q => if q = "out/fw.zip.part" then some [10] else none

/-- Witness for C1: the one already-written byte `[10]` is a prefix of the
resource `[10, 20, 30]`, and the resumed call publishes the full resource. -/
theorem fetch_resume_completes_with_prefix_preserved_witness :
    ∃ final : Bytes,
      (download_url (plainServer [10, 20, 30]) "out/fw.zip" true fsPartial).1 =
        Except.ok "out/fw.zip" ∧
      (download_url (plainServer [10, 20, 30]) "out/fw.zip" true fsPartial).2 "out/fw.zip" =
        some final ∧
      final.length = ([10, 20, 30] : Bytes).length ∧
      final.take ([10] : Bytes).length = [10] :=
  fetch_resume_completes_with_prefix_preserved [10, 20, 30] (plainServer [10, 20, 30])
    "out/fw.zip" fsPartial [10] (plainServer_honest [10, 20, 30]) (by decide) (by decide)
    ⟨[20, 30], rfl⟩

/-! ### C4, C5: manifest resolution and fallback -/

/-- A sample manifest entry for witnesses. -/
def sampleEntry : Entry := ⟨"https://example.com/foo.zip", "1", none, false⟩

/-- A remote fetch failing in the code's sense: the GET raised, or
`raise_for_status` raises (status 400-599), or the body does not parse.
A reply with any other status (e.g. 300) and a parseable body is returned
as the manifest, not treated as a failure. -/
def remoteFails : RemoteFetch → Prop
  | RemoteFetch.netError => True
  | RemoteFetch.reply status body => (400 ≤ status ∧ status < 600) ∨ body = none

/-- Counterexample to C4 as stated: a reply with the non-2xx status 300 and a
parseable body is a remote failure under the claim's reading, yet
`load_manifest` returns that body as the manifest — it raises no
`ManifestUnavailable` even with the local file absent (refuting the iff), and
with a present, valid local manifest it still returns the remote contents,
not the local ones (refuting the 'in particular' clause).
`raise_for_status` raises only for 400-599. -/
theorem load_manifest_300_returned_not_fallback :
    load_manifest (RemoteFetch.reply 300 (some [("foo", sampleEntry)])) LocalFile.absent =
      Except.ok [("foo", sampleEntry)] ∧
    load_manifest (RemoteFetch.reply 300 (some [("foo", sampleEntry)])) LocalFile.absent ≠
      Except.error ManifestErr.manifestUnavailable ∧
    load_manifest (RemoteFetch.reply 300 (some [("foo", sampleEntry)]))
        (LocalFile.valid [("bar", sampleEntry)]) =
      Except.ok [("foo", sampleEntry)] ∧
    ([("foo", sampleEntry)] : Manifest) ≠ [("bar", sampleEntry)] := by
  have h1 : load_manifest (RemoteFetch.reply 300 (some [("foo", sampleEntry)]))
      LocalFile.absent = Except.ok [("foo", sampleEntry)] := rfl
  refine ⟨h1, ?_, rfl, by decide⟩
  rw [h1]
  intro h2
  cases h2

/-- C4 (amended): `load_manifest` raises `ManifestUnavailable` exactly when
the remote fetch fails in the code's sense — network error, a 400-599 status
(the only ones `raise_for_status` raises for), or an unparseable body — and
the local manifest file is absent; and for every such remote failure with a
present, valid local manifest it returns exactly the local contents and
raises nothing. (A present but unparseable local file instead propagates the
decode error, not `ManifestUnavailable`; a non-2xx status outside 400-599
with a parseable body is returned as the manifest, see the counterexample.) -/
theorem load_manifest_unavailable_iff_raise_and_absent (remote : RemoteFetch) (lf : LocalFile) :
    (load_manifest remote lf = Except.error ManifestErr.manifestUnavailable ↔
      remoteFails remote ∧ lf = LocalFile.absent) ∧
    (∀ m, remoteFails remote → lf = LocalFile.valid m → load_manifest remote lf = Except.ok m) := by
  constructor
  · cases remote with
    | netError => cases lf <;> simp [load_manifest, remoteFails]
    | reply status body =>
      by_cases herr : 400 ≤ status ∧ status < 600
      · cases lf <;> simp [load_manifest, remoteFails, herr]
      · cases body with
        | some m => cases lf <;> simp [load_manifest, remoteFails, herr]
        | none => cases lf <;> simp [load_manifest, remoteFails, herr]
  · intro m hfail hl
    subst hl
    cases remote with
    | netError => rfl
    | reply status body =>
      cases hfail with
      | inl herr => simp [load_manifest, herr]
      | inr hbody =>
        subst hbody
        by_cases herr : 400 ≤ status ∧ status < 600 <;> simp [load_manifest, herr]

/-- Witness for the amended C4: remote down (network error), valid local
manifest — `load_manifest` returns exactly the local contents. -/
theorem load_manifest_unavailable_iff_raise_and_absent_witness :
    load_manifest RemoteFetch.netError (LocalFile.valid [("foo", sampleEntry)]) =
      Except.ok [("foo", sampleEntry)] :=
  (load_manifest_unavailable_iff_raise_and_absent RemoteFetch.netError
    (LocalFile.valid [("foo", sampleEntry)])).2 [("foo", sampleEntry)] trivial rfl

/-- C5: whenever the remote fetch succeeds with a parseable body `m` (any
status `raise_for_status` does not raise for — in particular every 2xx),
`load_manifest` returns exactly `m`, whatever the state or contents of the
local manifest — no key of the local manifest is merged into the result. -/
theorem load_manifest_remote_wins (status : Nat) (m : Manifest) (lf : LocalFile)
    (hok : ¬(400 ≤ status ∧ status < 600)) :
    load_manifest (RemoteFetch.reply status (some m)) lf = Except.ok m := by
  simp [load_manifest, hok]

/-- Witness for C5: a 200 reply wins over a present, different local
manifest. -/
theorem load_manifest_remote_wins_witness :
    load_manifest (RemoteFetch.reply 200 (some [("foo", sampleEntry)]))
      (LocalFile.valid [("bar", sampleEntry)]) = Except.ok [("foo", sampleEntry)] :=
  load_manifest_remote_wins 200 [("foo", sampleEntry)]
    (LocalFile.valid [("bar", sampleEntry)]) (by decide)

/-! ### C6: entry lookup -/

/-- C6: for every manifest `M` and device id `d`, the lookup returns exactly
the entry of `d` when `d` is a key of `M`, and fails with `UnknownDevice`
when it is not. -/
theorem entry_for_spec (M : Manifest) (d : String) :
    (∀ e, M.lookup d = some e → entry_for M d = Except.ok e) ∧
    (M.lookup d = none → entry_for M d = Except.error (LookupErr.unknownDevice d)) := by
  constructor
  · intro e h
    simp [entry_for, h]
  · intro h
    simp [entry_for, h]

/-- Witness for C6 on a one-entry manifest: a present key and an absent key. -/
theorem entry_for_spec_witness :
    entry_for [("foo", sampleEntry)] "foo" = Except.ok sampleEntry ∧
    entry_for [("foo", sampleEntry)] "bar" = Except.error (LookupErr.unknownDevice "bar") :=
  ⟨(entry_for_spec [("foo", sampleEntry)] "foo").1 sampleEntry (by decide),
   (entry_for_spec [("foo", sampleEntry)] "bar").2 (by decide)⟩

/-! ### C8: range header and open mode -/

/-- C8: on every call to `download_url`, when `resume` is enabled and the
temporary file's existing byte count is positive, the request carries
`Range: bytes=existing-` and the temporary file is opened for append; in
every other case (resume disabled, or zero existing bytes) no `Range` header
is sent and the temporary file is opened truncate-write. `download_url`
computes its request and open mode as `rangeAndMode resume (existingBytes fs
(tempPath dest))`. -/
theorem fetch_range_header_and_mode (fs : FS) (dest : String) (resume : Bool) :
    (resume = true → 0 < existingBytes fs (tempPath dest) →
      rangeAndMode resume (existingBytes fs (tempPath dest)) =
        (some (existingBytes fs (tempPath dest)), Mode.ab)) ∧
    (resume = false ∨ existingBytes fs (tempPath dest) = 0 →
      rangeAndMode resume (existingBytes fs (tempPath dest)) = (none, Mode.wb)) := by
  constructor
  · intro hr hk
    subst hr
    simp [rangeAndMode, hk]
  · rintro (hr | hk)
    · subst hr
      simp [rangeAndMode]
    · rw [hk]
      simp [rangeAndMode]

/-- Witness for C8: resuming over a one-byte temporary file sends
`Range: bytes=1-` and opens for append. -/
theorem fetch_range_header_and_mode_witness :
    rangeAndMode true (existingBytes fsPartial (tempPath "out/fw.zip")) =
      (some (existingBytes fsPartial (tempPath "out/fw.zip")), Mode.ab) :=
  (fetch_range_header_and_mode fsPartial "out/fw.zip" true).1 rfl (by decide)

/-! ### C7: end-to-end orchestration -/

/-- A fresh download (no temporary file on disk) from a standard source
publishes the full resource, whatever the resume flag. -/
theorem download_url_fresh_ok (resource : Bytes) (server : Server) (dest : String)
    (fs : FS) (resume : Bool) (hsrv : HonestServer resource server)
    (hfresh : fs (tempPath dest) = none) :
    (download_url server dest resume fs).1 = Except.ok dest ∧
    (download_url server dest resume fs).2 dest = some resource := by
  obtain ⟨⟨h200, hbody⟩, -, -⟩ := hsrv
  have hT := tempPath_ne dest
  simp only [download_url, existingBytes, hfresh, rangeAndMode]
  simp [h200, hbody, renameFile, setFile, hT, appendChunks_eq_join, hfresh]

/-- C7: for every resolved manifest holding device id `d` with entry `e`,
`search_latest_and_download` downloads to `out_dir` joined with the final
`/`-separated segment of `e.url`, returns that path, and the file there holds
the full remote body; for every device id absent from the manifest it raises
`UnknownDevice` and returns the filesystem unchanged (no writes). -/
theorem search_latest_end_to_end (remote : RemoteFetch) (lf : LocalFile) (M : Manifest)
    (d out_dir : String) (e : Entry) (resource : Bytes) (server : Server) (fs : FS)
    (resume : Bool) (hres : load_manifest remote lf = Except.ok M)
    (hsrv : HonestServer resource server) (hfound : M.lookup d = some e)
    (hfresh : fs (tempPath (out_dir ++ "/" ++ lastSegment e.url)) = none) :
    (search_latest_and_download remote lf server d out_dir resume fs).1 =
      Except.ok (out_dir ++ "/" ++ lastSegment e.url) ∧
    (search_latest_and_download remote lf server d out_dir resume fs).2
      (out_dir ++ "/" ++ lastSegment e.url) = some resource ∧
    (∀ d2, M.lookup d2 = none →
      search_latest_and_download remote lf server d2 out_dir resume fs =
        (Except.error (AppErr.unknownDevice d2), fs)) := by
  obtain ⟨hok, hcontents⟩ :=
    download_url_fresh_ok resource server (out_dir ++ "/" ++ lastSegment e.url) fs resume hsrv hfresh
  refine ⟨?_, ?_, ?_⟩
  · simp only [search_latest_and_download, hres, entry_for, hfound]
    rcases hdl : download_url server (out_dir ++ "/" ++ lastSegment e.url) resume fs with ⟨out, fs1⟩
    rw [hdl] at hok
    simp at hok
    subst hok
    simp
  · simp only [search_latest_and_download, hres, entry_for, hfound]
    rcases hdl : download_url server (out_dir ++ "/" ++ lastSegment e.url) resume fs with ⟨out, fs1⟩
    rw [hdl] at hok hcontents
    simp at hok hcontents
    subst hok
    simpa using hcontents
  · intro d2 hd2
    simp [search_latest_and_download, hres, entry_for, hd2]

/-- The manifest entry of the spec's end-to-end example. -/
def cEntry : Entry := ⟨"https://host/path/c-1.0-factory-xyz.zip", "1.0", none, false⟩

/-- Witness for C7: the spec's end-to-end example manifest, a present and an
absent device id. -/
theorem search_latest_end_to_end_witness :
    (search_latest_and_download (RemoteFetch.reply 200 (some [("c", cEntry)]))
        LocalFile.absent (plainServer [1, 2, 3]) "c" "out" true emptyFS).1 =
      Except.ok ("out" ++ "/" ++ lastSegment cEntry.url) ∧
    (search_latest_and_download (RemoteFetch.reply 200 (some [("c", cEntry)]))
        LocalFile.absent (plainServer [1, 2, 3]) "c" "out" true emptyFS).2
      ("out" ++ "/" ++ lastSegment cEntry.url) = some [1, 2, 3] ∧
    search_latest_and_download (RemoteFetch.reply 200 (some [("c", cEntry)]))
        LocalFile.absent (plainServer [1, 2, 3]) "unknown" "out" true emptyFS =
      (Except.error (AppErr.unknownDevice "unknown"), emptyFS) :=
  have h := search_latest_end_to_end (RemoteFetch.reply 200 (some [("c", cEntry)]))
    LocalFile.absent [("c", cEntry)] "c" "out" cEntry [1, 2, 3] (plainServer [1, 2, 3])
    emptyFS true rfl (plainServer_honest [1, 2, 3]) (by decide) rfl
  ⟨h.1, h.2.1, h.2.2 "unknown" (by decide)⟩

/-! ### C9: manifest update backs up and preserves other entries -/

theorem lookup_insertEntry_self (m : Manifest) (c : String) (e : Entry) :
    (insertEntry m c e).lookup c = some e := by
  induction m with
  | nil => simp [insertEntry]
  | cons kv rest ih =>
    obtain ⟨k1, v1⟩ := kv
    by_cases h : k1 = c
    · subst h
      simp [insertEntry]
    · have hb : (c == k1) = false := beq_eq_false_iff_ne.mpr (Ne.symm h)
      rw [insertEntry, if_neg h, List.lookup_cons, hb, ih]

theorem lookup_insertEntry_ne (m : Manifest) (c k : String) (e : Entry) (h : k ≠ c) :
    (insertEntry m c e).lookup k = m.lookup k := by
  have hb : (k == c) = false := beq_eq_false_iff_ne.mpr h
  induction m with
  | nil => rw [insertEntry, List.lookup_cons, hb, List.lookup_nil]
  | cons kv rest ih =>
    obtain ⟨k1, v1⟩ := kv
    by_cases h1 : k1 = c
    · subst h1
      rw [insertEntry, if_pos rfl, List.lookup_cons, List.lookup_cons, hb]
    · rw [insertEntry, if_neg h1, List.lookup_cons, List.lookup_cons, ih]

/-- C9: for every update call whose URL parses to codename `c`, an existing
(valid) manifest file is first moved to the timestamped backup path, and the
newly written manifest maps every key other than `c` to exactly the entry it
had before, with only the entry of `c` added or replaced (it becomes the
returned meta entry). -/
theorem update_manifest_backup_and_frame (url : String) (m : Manifest)
    (headSize : Option Nat) (headOk : Bool) (verify : Bool) (now : Nat)
    (c v : String) (hparse : parse_factory_filename url = (some c, some v)) :
    ∃ res : UpdateResult,
      update_manifest_with_entry url (LocalFile.valid m) headSize headOk verify now =
        Except.ok res ∧
      res.backup = some (now, LocalFile.valid m) ∧
      (∀ k, k ≠ c → res.written.lookup k = m.lookup k) ∧
      res.written.lookup c = some res.meta := by
  unfold update_manifest_with_entry
  rw [hparse]
  exact ⟨_, rfl, rfl, fun k hk => lookup_insertEntry_ne m c k _ hk,
    lookup_insertEntry_self m c _⟩

/-- Witness for C9 at a concrete URL and a one-entry prior manifest. -/
theorem update_manifest_backup_and_frame_witness :
    ∃ res : UpdateResult,
      update_manifest_with_entry "https://dl.google.com/x/crosshatch-9.0-factory-abc.zip"
          (LocalFile.valid [("oriole", sampleEntry)]) (some 5) true true 1700000000 =
        Except.ok res ∧
      res.backup = some (1700000000, LocalFile.valid [("oriole", sampleEntry)]) ∧
      (∀ k, k ≠ "crosshatch" → res.written.lookup k =
        List.lookup k [("oriole", sampleEntry)]) ∧
      res.written.lookup "crosshatch" = some res.meta :=
  update_manifest_backup_and_frame "https://dl.google.com/x/crosshatch-9.0-factory-abc.zip"
    [("oriole", sampleEntry)] (some 5) true true 1700000000 "crosshatch" "9.0" (by decide)

/-! ### C10: the factory-filename parser -/

theorem takeWhileAll {p : Char → Bool} (xs ys : List Char) (h : ∀ x ∈ xs, p x) :
    (xs ++ ys).takeWhile p = xs ++ ys.takeWhile p := by
  induction xs with
  | nil => simp
  | cons a rest ih =>
    have ha : p a := h a (by simp)
    simp only [List.cons_append, List.takeWhile_cons_of_pos ha]
    rw [ih (fun x hx => h x (by simp [hx]))]

theorem dropWhileAll {p : Char → Bool} (xs ys : List Char) (h : ∀ x ∈ xs, p x) :
    (xs ++ ys).dropWhile p = ys.dropWhile p := by
  induction xs with
  | nil => simp
  | cons a rest ih =>
    have ha : p a := h a (by simp)
    simp only [List.cons_append, List.dropWhile_cons_of_pos ha]
    exact ih (fun x hx => h x (by simp [hx]))

/-- Characterization of `matchFactory`: it succeeds with captures `(c, v)`
exactly when the input decomposes as `c ++ "-" ++ v ++ "-factory" ++ rest`
with `c` a nonempty run of `[a-z0-9]` and `v` a nonempty run of `[a-z0-9.]`.
The decomposition is unique because neither class contains the hyphen. -/
theorem matchFactory_some_iff (l : List Char) (c v : String) :
    matchFactory l = some (c, v) ↔
      ∃ rest : List Char,
        l = c.toList ++ '-' :: (v.toList ++ '-' :: "factory".toList ++ rest) ∧
        c.toList ≠ [] ∧ c.toList.all codeChar ∧ v.toList ≠ [] ∧ v.toList.all verChar := by
  have hfac : ("-factory".toList : List Char) = '-' :: "factory".toList := rfl
  constructor
  · intro h
    unfold matchFactory at h
    dsimp only [] at h
    split at h
    · cases h
    · rename_i hne0
      split at h
      · cases h
      · rename_i ch rest2 heq
        split at h
        · rename_i hch
          subst hch
          split at h
          · cases h
          · rename_i hver
            split at h
            · rename_i hpre
              have h4 : ((l.takeWhile codeChar).asString,
                  (rest2.takeWhile verChar).asString) = (c, v) := by injection h
              have hc : (l.takeWhile codeChar).asString = c := congrArg Prod.fst h4
              have hv : (rest2.takeWhile verChar).asString = v := congrArg Prod.snd h4
              obtain ⟨rest4, hr4⟩ := List.isPrefixOf_iff_prefix.mp hpre
              have hc2 : c.toList = l.takeWhile codeChar := (congrArg String.toList hc).symm
              have hv2 : v.toList = rest2.takeWhile verChar := (congrArg String.toList hv).symm
              refine ⟨rest4, ?_, ?_, ?_, ?_, ?_⟩
              · rw [hc2, hv2]
                have hsplit2 : rest2.takeWhile verChar ++ rest2.dropWhile verChar = rest2 :=
                  List.takeWhile_append_dropWhile verChar rest2
                calc l = l.takeWhile codeChar ++ l.dropWhile codeChar :=
                      (List.takeWhile_append_dropWhile codeChar l).symm
                  _ = l.takeWhile codeChar ++ ('-' :: rest2) := by rw [heq]
                  _ = l.takeWhile codeChar ++
                      ('-' :: (rest2.takeWhile verChar ++ rest2.dropWhile verChar)) := by
                        rw [hsplit2]
                  _ = l.takeWhile codeChar ++
                      ('-' :: (rest2.takeWhile verChar ++ '-' :: "factory".toList ++ rest4)) := by
                        rw [← hr4, hfac]
                        simp [List.cons_append, List.append_assoc]
              · rw [hc2]
                intro hnil
                simp [hnil] at hne0
              · rw [hc2]
                exact List.all_eq_true.mpr (fun x hx => List.mem_takeWhile_imp hx)
              · rw [hv2]
                intro hnil
                simp [hnil] at hver
              · rw [hv2]
                exact List.all_eq_true.mpr (fun x hx => List.mem_takeWhile_imp hx)
            · cases h
        · cases h
  · rintro ⟨rest, hl, hcne, hcall, hvne, hvall⟩
    have hcodedash : codeChar '-' = false := rfl
    have hverdash : verChar '-' = false := rfl
    have hcall2 : ∀ x ∈ c.toList, codeChar x := List.all_eq_true.mp hcall
    have hvall2 : ∀ x ∈ v.toList, verChar x := List.all_eq_true.mp hvall
    have htake : l.takeWhile codeChar = c.toList := by
      rw [hl, takeWhileAll _ _ hcall2]
      simp [List.takeWhile_cons_of_neg, hcodedash]
    have hdrop : l.dropWhile codeChar = '-' :: (v.toList ++ '-' :: "factory".toList ++ rest) := by
      rw [hl, dropWhileAll _ _ hcall2]
      simp [List.dropWhile_cons_of_neg, hcodedash]
    have htake2 : (v.toList ++ '-' :: "factory".toList ++ rest).takeWhile verChar = v.toList := by
      rw [List.append_assoc, takeWhileAll _ _ hvall2]
      simp [List.takeWhile_cons_of_neg, hverdash]
    have hdrop2 : (v.toList ++ '-' :: "factory".toList ++ rest).dropWhile verChar =
        '-' :: "factory".toList ++ rest := by
      rw [List.append_assoc, dropWhileAll _ _ hvall2]
      simp [List.dropWhile_cons_of_neg, hverdash]
    have hcs : (c.toList).asString = c := rfl
    have hvs : (v.toList).asString = v := rfl
    unfold matchFactory
    dsimp only []
    rw [htake, hdrop]
    rw [if_neg (by simpa [List.isEmpty_iff] using hcne)]
    dsimp only []
    rw [if_pos rfl, htake2, hdrop2]
    rw [if_neg (by simpa [List.isEmpty_iff] using hvne)]
    rw [if_pos (by rw [hfac]; exact List.isPrefixOf_iff_prefix.mpr ⟨rest, by simp⟩), hcs, hvs]

/-- The claim's matching condition at the string level: the segment starts
with codename, hyphen, version, hyphen, the literal `factory`. -/
def FactoryMatch (seg c v : String) : Prop :=
  ∃ rest : String, seg = c ++ "-" ++ v ++ "-factory" ++ rest ∧
    c ≠ "" ∧ c.toList.all codeChar ∧ v ≠ "" ∧ v.toList.all verChar

theorem factoryMatch_iff_toList (seg c v : String) :
    FactoryMatch seg c v ↔
      ∃ rest : List Char,
        seg.toList = c.toList ++ '-' :: (v.toList ++ '-' :: "factory".toList ++ rest) ∧
        c.toList ≠ [] ∧ c.toList.all codeChar ∧ v.toList ≠ [] ∧ v.toList.all verChar := by
  have hdash : ("-" : String).data = ['-'] := rfl
  have hfacd : ("-factory" : String).data = '-' :: "factory".toList := rfl
  constructor
  · rintro ⟨rest, hseg, hcne, hcall, hvne, hvall⟩
    refine ⟨rest.toList, ?_, ?_, hcall, ?_, hvall⟩
    · have h2 := congrArg String.data hseg
      simp only [String.data_append, hdash, hfacd] at h2
      simpa [String.toList, List.append_assoc, List.cons_append] using h2
    · intro h0
      exact hcne (String.ext (by simpa [String.toList] using h0))
    · intro h0
      exact hvne (String.ext (by simpa [String.toList] using h0))
  · rintro ⟨rest, hseg, hcne, hcall, hvne, hvall⟩
    refine ⟨rest.asString, ?_, ?_, hcall, ?_, hvall⟩
    · apply String.ext
      simp only [String.data_append, hdash, hfacd]
      simpa [String.toList, List.append_assoc, List.cons_append] using hseg
    · intro h0
      exact hcne (by rw [h0]; rfl)
    · intro h0
      exact hvne (by rw [h0]; rfl)

/-- C10: `parse_factory_filename` is total by construction (it is a Lean
function), always returns either two captures or `(none, none)`, returns
`(none, none)` on the empty url, and returns `(some c, some v)` exactly when
the url is nonempty and its final `/`-separated segment matches the anchored
pattern codename `[a-z0-9]+`, hyphen, version `[a-z0-9.]+`, hyphen, literal
`factory` with captures `c` and `v`. -/
theorem parse_factory_filename_spec (url : String) :
    (parse_factory_filename url = (none, none) ∨
      ∃ c v, parse_factory_filename url = (some c, some v)) ∧
    (url = "" → parse_factory_filename url = (none, none)) ∧
    ∀ c v, parse_factory_filename url = (some c, some v) ↔
      (url ≠ "" ∧ FactoryMatch (lastSegment url) c v) := by
  refine ⟨?_, ?_, ?_⟩
  · unfold parse_factory_filename
    by_cases hu : url = ""
    · simp [hu]
    · rw [if_neg hu]
      cases hm : matchFactory (lastSegment url).toList with
      | none => left; rfl
      | some cv =>
        obtain ⟨a, b⟩ := cv
        right
        exact ⟨a, b, rfl⟩
  · intro hu
    simp [parse_factory_filename, hu]
  · intro c v
    by_cases hu : url = ""
    · simp [parse_factory_filename, hu]
    · unfold parse_factory_filename
      rw [if_neg hu]
      constructor
      · intro h
        cases hm : matchFactory (lastSegment url).toList with
        | none =>
          rw [hm] at h
          exact absurd (congrArg Prod.fst h) (by simp)
        | some cv =>
          obtain ⟨a, b⟩ := cv
          rw [hm] at h
          have ha : a = c := by
            have := congrArg Prod.fst h
            simpa using this
          have hb : b = v := by
            have := congrArg Prod.snd h
            simpa using this
          subst ha
          subst hb
          refine ⟨hu, ?_⟩
          rw [factoryMatch_iff_toList]
          exact (matchFactory_some_iff (lastSegment url).toList a b).mp hm
      · rintro ⟨-, hfm⟩
        have hm := (matchFactory_some_iff (lastSegment url).toList c v).mpr
          ((factoryMatch_iff_toList (lastSegment url) c v).mp hfm)
        rw [hm]

/-- Witness for C10 at the spec's example filename. -/
theorem parse_factory_filename_spec_witness :
    parse_factory_filename "https://h/p/crosshatch-9.0-factory-abc.zip" =
      (some "crosshatch", some "9.0") :=
  ((parse_factory_filename_spec "https://h/p/crosshatch-9.0-factory-abc.zip").2.2
      "crosshatch" "9.0").mpr
    ⟨by decide, "-abc.zip", by decide, by decide, by decide, by decide, by decide⟩
